import Mathlib

/-!
Shallow embedding of `src/Playlist_verifier.py` (the playlist file intake and
validation pipeline): filename parsing and validation (`FileProcessor.process_file`),
watch-directory parsing (`FileProcessor.parse_watch_directories`), the scan loop
with its duplicate-suppression set (`FileProcessor.scan_and_process_files`), and
the audit records written by `handle_validation_failure` and
`insert_into_playlist_process`.

The filesystem and database are modelled explicitly: a directory map, an input
location, a move-success oracle for `shutil.move`, and the list of inserted
audit rows.  `datetime.strptime(date_string, "%d%m%Y")` is modelled after
CPython's `_strptime`: the format compiles to the regular expression
`(3[01]|[12]\d|0[1-9]|[1-9])(1[0-2]|0[1-9]|[1-9])(\d\d\d\d)`, the engine
returns the first match in alternation/backtracking order, the parse fails if
the match does not consume the whole string, and the resulting numbers must
form a real calendar date (proleptic Gregorian, year at least 1).
-/

namespace PlaylistVerifier

/-- Numeric value of a digit character. -/
def dval (c : Char) : Nat := c.toNat - 48

/-- `'0' ≤ c ≤ '9'`. -/
def isDigitC (c : Char) : Bool := 48 ≤ c.toNat && c.toNat ≤ 57

/-- `'1' ≤ c ≤ '9'`. -/
def isDigit19 (c : Char) : Bool := 49 ≤ c.toNat && c.toNat ≤ 57

/-- The digit character for `n < 10`. -/
def digitC (n : Nat) : Char := Char.ofNat (48 + n)

/-- Two-digit zero-padded numeral, as characters. -/
def pad2 (n : Nat) : List Char := [digitC (n / 10), digitC (n % 10)]

/-- Four-digit zero-padded numeral, as characters. -/
def pad4 (n : Nat) : List Char :=
  [digitC (n / 1000), digitC (n / 100 % 10), digitC (n / 10 % 10), digitC (n % 10)]

/-- The candidates of the `%d` group `(3[01]|[12]\d|0[1-9]|[1-9])`, in the
regular expression's alternation order, each with the remaining input. -/
def dayCands : List Char → List (Nat × List Char)
  | [] => []
  | [a] => if isDigit19 a then [(dval a, [])] else []
  | a :: b :: rest =>
    (if a = '3' ∧ (b = '0' ∨ b = '1') then [(30 + dval b, rest)] else []) ++
    (if (a = '1' ∨ a = '2') ∧ isDigitC b then [(10 * dval a + dval b, rest)] else []) ++
    (if a = '0' ∧ isDigit19 b then [(dval b, rest)] else []) ++
    (if isDigit19 a then [(dval a, b :: rest)] else [])

/-- The candidates of the `%m` group `(1[0-2]|0[1-9]|[1-9])`, in alternation
order. -/
def monthCands : List Char → List (Nat × List Char)
  | [] => []
  | [a] => if isDigit19 a then [(dval a, [])] else []
  | a :: b :: rest =>
    (if a = '1' ∧ (b = '0' ∨ b = '1' ∨ b = '2') then [(10 + dval b, rest)] else []) ++
    (if a = '0' ∧ isDigit19 b then [(dval b, rest)] else []) ++
    (if isDigit19 a then [(dval a, b :: rest)] else [])

/-- The `%Y` group `(\d\d\d\d)`: exactly four digits. -/
def year4 : List Char → Option (Nat × List Char)
  | a :: b :: c :: d :: rest =>
    if isDigitC a ∧ isDigitC b ∧ isDigitC c ∧ isDigitC d then
      some (((dval a * 10 + dval b) * 10 + dval c) * 10 + dval d, rest)
    else none
  | _ => none

/-- Backtracking over the month candidates: for each, the year group must
match right after it; the first success wins. -/
def matchMY : List (Nat × List Char) → Option (Nat × Nat × List Char)
  | [] => none
  | (m, r2) :: rest =>
    match year4 r2 with
    | some (y, r3) => some (m, y, r3)
    | none => matchMY rest

/-- Backtracking over the day candidates: for each, the month and year groups
must match after it; the first success wins. -/
def matchDay : List (Nat × List Char) → Option (Nat × Nat × Nat × List Char)
  | [] => none
  | (d, r1) :: rest =>
    match matchMY (monthCands r1) with
    | some (m, y, r3) => some (d, m, y, r3)
    | none => matchDay rest

/-- The first match of `%d%m%Y`'s regular expression against a prefix of the
input, in backtracking order, with the unconsumed remainder. -/
def firstMatchDMY (cs : List Char) : Option (Nat × Nat × Nat × List Char) :=
  matchDay (dayCands cs)

/-- Gregorian leap year, as Python's `datetime` uses it. -/
def isLeap (y : Nat) : Bool := y % 4 == 0 && (y % 100 != 0 || y % 400 == 0)

/-- Days in a month (proleptic Gregorian). -/
def daysInMonth (y m : Nat) : Nat :=
  if m = 2 then (if isLeap y then 29 else 28)
  else if m = 4 ∨ m = 6 ∨ m = 9 ∨ m = 11 then 30
  else 31

/-- A parsed calendar date. -/
structure Date where
  year : Nat
  month : Nat
  day : Nat
deriving DecidableEq, Repr

/-- `datetime.strptime(s, "%d%m%Y")`, returning `none` on `ValueError`: the
regular expression's first match must consume the whole string, and the
numbers must form a valid `datetime` (year at least `MINYEAR = 1`, day within
the month). -/
def strptimeDMY (s : String) : Option Date :=
  match firstMatchDMY s.toList with
  | some (d, m, y, []) =>
    if 1 ≤ y ∧ d ≤ daysInMonth y m then some ⟨y, m, d⟩ else none
  | _ => none

/-- `.strftime("%Y-%m-%d")`: the canonical ISO rendering of a parsed date. -/
def isoFormat (dte : Date) : String :=
  String.mk (pad4 dte.year ++ '-' :: pad2 dte.month ++ '-' :: pad2 dte.day)

/-- Modelled from the spec: re-encoding a canonical date with the `%d%m%Y`
pattern (zero-padded directives, as the `strptime`-style pattern documents
them).  The repository never re-encodes; the spec's round-trip property needs
this encoder. -/
def encodeDMY (dte : Date) : String :=
  String.mk (pad2 dte.day ++ pad2 dte.month ++ pad4 dte.year)

/-- Modelled from the spec: `datetime.strptime(s, "%Y%m%d")` for a configured
`playlistdateformat` of `"%Y%m%d"`, after CPython's `_strptime` regular
expression `(\d\d\d\d)(1[0-2]|0[1-9]|[1-9])(3[01]|[12]\d|0[1-9]|[1-9])`:
year group first, then month candidates with the day group backtracked after
each, first match, full consumption, then calendar validity. -/
def strptimeYmd (s : String) : Option Date :=
  match year4 s.toList with
  | none => none
  | some (y, r1) =>
    -- the day group is last: its first candidate completes the match
    match (monthCands r1).findSome?
        (fun p => (dayCands p.2).head?.map (fun q => (p.1, q.1, q.2))) with
    | some (m, d, rest) =>
      if rest = [] ∧ 1 ≤ y ∧ d ≤ daysInMonth y m then some ⟨y, m, d⟩ else none
    | none => none

/-- ASCII lower-casing of one character (`str.lower()`; the filenames and
extensions in play are ASCII). -/
def charLower (c : Char) : Char :=
  if 65 ≤ c.toNat ∧ c.toNat ≤ 90 then Char.ofNat (c.toNat + 32) else c

/-- `str.lower()` over a whole string. -/
def lowerStr (s : String) : String := String.mk (s.toList.map charLower)

/-- `filename[0:3]`: Python slicing never fails, a shorter string yields a
shorter slice. -/
def take3 (s : String) : String := String.mk (s.toList.take 3)

/-- Whether a character is ASCII whitespace (`str.strip()`). -/
def isSpaceC (c : Char) : Bool := c = ' ' || c = '\t' || c = '\n' || c = '\r'

/-- `str.strip()`: leading and trailing whitespace removed. -/
def stripStr (cs : List Char) : List Char :=
  ((cs.dropWhile isSpaceC).reverse.dropWhile isSpaceC).reverse

/-- Python's `str.split(sep)` for a one-character separator, over characters:
always returns at least one (possibly empty) segment. -/
def splitOnChar (sep : Char) : List Char → List (List Char)
  | [] => [[]]
  | c :: cs =>
    match splitOnChar sep cs with
    | [] => [[]]
    | t :: ts => if c = sep then [] :: t :: ts else (c :: t) :: ts

/-- Index of the last `'.'` in the character list, if any. -/
def lastDot : List Char → Option Nat
  | [] => none
  | c :: cs =>
    match lastDot cs with
    | some i => some (i + 1)
    | none => if c = '.' then some 0 else none

/-- `os.path.splitext(filename)[1]` for a basename (no path separator): the
suffix from the last `'.'` on, unless every character before that dot is
itself a dot (a leading-dots name has no extension). -/
def splitextExt (s : String) : String :=
  match lastDot s.toList with
  | none => ""
  | some i => if (s.toList.take i).all (· = '.') then "" else String.mk (s.toList.drop i)

/-- `filename.split('-')[0][4:]`: the date segment of a filename. -/
def dateSegment (fn : String) : String :=
  String.mk (((splitOnChar '-' fn.toList).headD []).drop 4)

/-- `filename.split('-')[1].split('.')[0]`: the version token.  `none` models
the uncaught `IndexError` when the filename has no `'-'`. -/
def versionOf (fn : String) : Option String :=
  match (splitOnChar '-' fn.toList).get? 1 with
  | none => none
  | some seg => some (String.mk ((splitOnChar '.' seg).headD []))

/-- The row fetched by `fetch_playlist_configuration` from
`playlist_configuration`: one channel's settings. -/
structure Config where
  channeluid : String
  playlistwatchfolder : String
  playlistinputlocation : String
  playlistoutputlocation : String
  playlistnameprefix : String
  playlistdateformat : String
  playlistextension : String
  createdby : String
  updatedby : String
deriving DecidableEq, Repr

/-- One row of the `playlist_process` audit table, with the columns the two
`INSERT` statements write (`playlistdate` is absent from the rejection
insert, `remarks` from the acceptance insert). -/
structure Record where
  channeluid : String
  playlistfilename : String
  playlistfileversion : String
  playlistinputpath : String
  playlistoutputpath : String
  playlistdate : Option String
  status : Nat
  remarks : Option String
  createdby : String
  updatedby : String
deriving DecidableEq, Repr

/-- The rejection row `handle_validation_failure` inserts: status 99, the
reason in `remarks`, no date. -/
def rejRecord (cfg : Config) (fn ver reason : String) : Record :=
  { channeluid := cfg.channeluid
    playlistfilename := fn
    playlistfileversion := ver
    playlistinputpath := cfg.playlistinputlocation
    playlistoutputpath := cfg.playlistoutputlocation
    playlistdate := none
    status := 99
    remarks := some reason
    createdby := cfg.createdby
    updatedby := cfg.updatedby }

/-- The acceptance row `insert_into_playlist_process` inserts: status 0, the
canonical date, no remarks. -/
def accRecord (cfg : Config) (fn pdate ver : String) : Record :=
  { channeluid := cfg.channeluid
    playlistfilename := fn
    playlistfileversion := ver
    playlistinputpath := cfg.playlistinputlocation
    playlistoutputpath := cfg.playlistoutputlocation
    playlistdate := some pdate
    status := 0
    remarks := none
    createdby := cfg.createdby
    updatedby := cfg.updatedby }

/-- The filesystem as the pipeline sees it: each watch directory's entries
(`true` marks a regular file), and the filenames now at the input location. -/
structure FS where
  dirs : List (String × List (String × Bool))
  inputFiles : List String
deriving DecidableEq, Repr

/-- `shutil.move(file_path, input_file_path)` when it succeeds: the entry
leaves the watch directory and the filename appears at the input location. -/
def moveFile (fs : FS) (dp fn : String) : FS :=
  { dirs := fs.dirs.map (fun e => if e.1 = dp then (e.1, e.2.filter (fun x => x.1 ≠ fn)) else e)
    inputFiles := fs.inputFiles ++ [fn] }

/-- What one call of `process_file` was observed to do. -/
inductive Outcome where
  /-- an uncaught exception (the `IndexError` of `filename.split('-')[1]`) -/
  | crash : Outcome
  /-- `handle_validation_failure` ran with this reason and version -/
  | rejected (reason ver : String) : Outcome
  /-- validation passed but `shutil.move` raised: logged, nothing else -/
  | moveFailed : Outcome
  /-- the file was moved and the status-0 row inserted -/
  | accepted (pdate ver : String) : Outcome
deriving DecidableEq, Repr

/-- `FileProcessor.process_file` (lines 141-172) on the file `dp ++ "/" ++ fn`:
returns the filesystem after the call, the audit rows inserted during it, and
the observed outcome.  `mv` is the environment's verdict on `shutil.move`
(`false` = the move raises).  Field extraction happens before any check, so a
filename without `'-'` crashes before the date check; the date check precedes
the prefix check, which precedes the extension check; a failed move returns
early, inserting nothing. -/
def processFile (cfg : Config) (mv : String → Bool) (fs : FS) (dp fn : String) :
    FS × List Record × Outcome :=
  let pfx := take3 fn
  let ext := lowerStr (splitextExt fn)
  let dateStr := dateSegment fn
  match versionOf fn with
  | none => (fs, [], Outcome.crash)
  | some ver =>
    match strptimeDMY dateStr with
    | none =>
      (fs, [rejRecord cfg fn ver "Invalid date format"], Outcome.rejected "Invalid date format" ver)
    | some dte =>
      let pdate := isoFormat dte
      if pfx ≠ cfg.playlistnameprefix then
        (fs, [rejRecord cfg fn ver "Invalid prefix"], Outcome.rejected "Invalid prefix" ver)
      else if ext ≠ cfg.playlistextension then
        (fs, [rejRecord cfg fn ver "Invalid file extension"],
          Outcome.rejected "Invalid file extension" ver)
      else if mv (dp ++ "/" ++ fn) then
        (moveFile fs dp fn, [accRecord cfg fn pdate ver], Outcome.accepted pdate ver)
      else
        (fs, [], Outcome.moveFailed)

/-- The poller's mutable state: the filesystem, `self.processed_files`, and
the audit rows inserted so far. -/
structure State where
  fs : FS
  processed : List String
  records : List Record
deriving DecidableEq, Repr

/-- One dispatch of a candidate file to `process_file`, as the scan loop saw
it: the directory, the filename, the outcome, and the rows that call
inserted. -/
structure Event where
  dir : String
  name : String
  outcome : Outcome
  records : List Record
deriving DecidableEq, Repr

/-- The full path `os.path.join(watch_dir, filename)` of an event's file. -/
def Event.path (e : Event) : String := e.dir ++ "/" ++ e.name

/-- The directory entry of `n` in directory `dp`: `some b` when present
(`b` = regular file), `none` when absent. -/
def fileEntry (fs : FS) (dp n : String) : Option Bool :=
  (fs.dirs.lookup dp).bind (fun ls => ls.lookup n)

/-- `os.path.isfile(file_path)`: the name is a regular-file entry of the
directory right now. -/
def isfileIn (fs : FS) (dp n : String) : Bool :=
  fileEntry fs dp n == some true

/-- A terminally handled outcome in the spec's sense: moved (accepted) or
rejected. -/
def Outcome.isHandled : Outcome → Bool
  | Outcome.rejected _ _ => true
  | Outcome.accepted _ _ => true
  | _ => false

/-- The state after the scan loop has dispatched `dp/n` and added its path to
`processed_files` (lines 138-139): the filesystem `process_file` left, the
path appended, the inserted rows appended. -/
def stepState (cfg : Config) (mv : String → Bool) (dp n : String) (st : State) : State :=
  { fs := (processFile cfg mv st.fs dp n).1
    processed := st.processed ++ [dp ++ "/" ++ n]
    records := st.records ++ (processFile cfg mv st.fs dp n).2.1 }

/-- The inner loop of `scan_and_process_files` over one directory's listing
snapshot: dispatch each regular file not yet in `processed_files`, then add
its path to the set.  An uncaught exception (`Outcome.crash`) aborts the scan
(third component `true`): the path is not added. -/
def processDirFiles (cfg : Config) (mv : String → Bool) (dp : String) :
    List String → State → State × List Event × Bool
  | [], st => (st, [], false)
  | n :: rest, st =>
    if isfileIn st.fs dp n ∧ (dp ++ "/" ++ n) ∉ st.processed then
      if (processFile cfg mv st.fs dp n).2.2 = Outcome.crash then
        ({ st with fs := (processFile cfg mv st.fs dp n).1 },
         [⟨dp, n, (processFile cfg mv st.fs dp n).2.2, (processFile cfg mv st.fs dp n).2.1⟩],
         true)
      else
        let r := processDirFiles cfg mv dp rest (stepState cfg mv dp n st)
        (r.1,
         ⟨dp, n, (processFile cfg mv st.fs dp n).2.2, (processFile cfg mv st.fs dp n).2.1⟩ ::
           r.2.1,
         r.2.2)
    else
      processDirFiles cfg mv dp rest st

/-- Whether the watch directory exists on disk (`os.path.exists`). -/
def dirExists (fs : FS) (dp : String) : Bool := (fs.dirs.lookup dp).isSome

/-- The listing snapshot `os.listdir(watch_dir)` takes at loop entry. -/
def listingOf (fs : FS) (dp : String) : List String :=
  ((fs.dirs.lookup dp).getD []).map (·.1)

/-- `scan_and_process_files` (lines 128-139): one pass over the watch
directories.  A vanished directory is skipped with a warning; an uncaught
exception propagates, ending the pass (and the process). -/
def scanDirs (cfg : Config) (mv : String → Bool) :
    List String → State → State × List Event × Bool
  | [], st => (st, [], false)
  | d :: rest, st =>
    if dirExists st.fs d then
      if (processDirFiles cfg mv d (listingOf st.fs d) st).2.2 then
        ((processDirFiles cfg mv d (listingOf st.fs d) st).1,
         (processDirFiles cfg mv d (listingOf st.fs d) st).2.1, true)
      else
        ((scanDirs cfg mv rest (processDirFiles cfg mv d (listingOf st.fs d) st).1).1,
         (processDirFiles cfg mv d (listingOf st.fs d) st).2.1 ++
           (scanDirs cfg mv rest (processDirFiles cfg mv d (listingOf st.fs d) st).1).2.1,
         (scanDirs cfg mv rest (processDirFiles cfg mv d (listingOf st.fs d) st).1).2.2)
    else
      scanDirs cfg mv rest st

/-- Files the outside world drops into watch directories between passes
(directory path, filename).  A directory not yet known appears with that one
entry. -/
def addArrivals (fs : FS) : List (String × String) → FS
  | [] => fs
  | (dp, fn) :: rest =>
    let fs' : FS :=
      if dirExists fs dp then
        { fs with
          dirs := fs.dirs.map (fun e => if e.1 = dp then (e.1, e.2 ++ [(fn, true)]) else e) }
      else
        { fs with dirs := fs.dirs ++ [(dp, [(fn, true)])] }
    addArrivals fs' rest

/-- The state at the start of a pass: the arrivals have hit the filesystem,
nothing else changed. -/
def arrState (st : State) (arr : List (String × String)) : State :=
  { st with fs := addArrivals st.fs arr }

/-- The polling loop of `main`: one `scan_and_process_files` pass per element
of `arrs` (the files arriving before that pass), stopping if a pass dies on
an uncaught exception.  Returns the final state, each pass's events, and
whether the run crashed. -/
def runPasses (cfg : Config) (mv : String → Bool) (wds : List String) :
    State → List (List (String × String)) → State × List (List Event) × Bool
  | st, [] => (st, [], false)
  | st, arr :: rest =>
    if (scanDirs cfg mv wds (arrState st arr)).2.2 then
      ((scanDirs cfg mv wds (arrState st arr)).1,
       [(scanDirs cfg mv wds (arrState st arr)).2.1], true)
    else
      ((runPasses cfg mv wds (scanDirs cfg mv wds (arrState st arr)).1 rest).1,
       (scanDirs cfg mv wds (arrState st arr)).2.1 ::
         (runPasses cfg mv wds (scanDirs cfg mv wds (arrState st arr)).1 rest).2.1,
       (runPasses cfg mv wds (scanDirs cfg mv wds (arrState st arr)).1 rest).2.2)

/-- The comma-separated watch folder configuration, split and trimmed, empty
entries dropped (`parse_watch_directories` lines 110). -/
def parsedDirs (wfc : String) : List String :=
  ((((splitOnChar ',' wfc.toList).map stripStr).filter (· ≠ [])).map String.mk)

/-- `FileProcessor.parse_watch_directories` (lines 101-126): reject an empty
configuration, split on commas, drop entries that do not exist on disk with a
warning, and fail when none is left.  `pe` is `os.path.exists` at startup. -/
def parseWatchDirectories (pe : String → Bool) (wfc : String) : Except String (List String) :=
  if wfc = "" then Except.error "No watch directories configured."
  else
    let valid := (parsedDirs wfc).filter pe
    if valid = [] then Except.error "No valid watch directories found."
    else Except.ok valid

/-- Startup followed by the polling loop: `FileProcessor.__init__` parses the
watch directories (raising before any pass when none is valid), then `main`
polls.  `pe` is `os.path.exists` at startup. -/
def startAndRun (cfg : Config) (pe mv : String → Bool) (st : State)
    (arrs : List (List (String × String))) :
    Except String (State × List (List Event) × Bool) :=
  match parseWatchDirectories pe cfg.playlistwatchfolder with
  | Except.error e => Except.error e
  | Except.ok wds => Except.ok (runPasses cfg mv wds st arrs)

/-- The spec's concrete scenario configuration: `prefix="CH1"`,
`extension=".pls"`, `date_format="%d%m%Y"`. -/
def cfg1 : Config :=
  { channeluid := "CH-01"
    playlistwatchfolder := "/watch"
    playlistinputlocation := "/input"
    playlistoutputlocation := "/output"
    playlistnameprefix := "CH1"
    playlistdateformat := "%d%m%Y"
    playlistextension := ".pls"
    createdby := "admin"
    updatedby := "admin" }

/-- `cfg1` with the configured date format changed to `"%Y%m%d"`. -/
def cfgY : Config := { cfg1 with playlistdateformat := "%Y%m%d" }

/-- `cfg1` with an upper-case configured extension. -/
def cfgU : Config := { cfg1 with playlistextension := ".PLS" }

/-- A move oracle that always succeeds. -/
def mvOk : String → Bool := fun _ => true

/-- A move oracle that always fails (`shutil.move` raises). -/
def mvFail : String → Bool := fun _ => false

/-- One watch directory holding the scenario file. -/
def fs1 : FS :=
  { dirs := [("/watch", [("CH1X01012024-003.pls", true)])], inputFiles := [] }

/-- The idle starting state over `fs1`. -/
def st1 : State := { fs := fs1, processed := [], records := [] }

/-- The version token `filename.split('-')[1].split('.')[0]` when the split
has a second segment (total function used to state properties). -/
def versionTok (fn : String) : String :=
  String.mk ((splitOnChar '.' ((splitOnChar '-' fn.toList).getD 1 [])).headD [])

/-- `cfg1` with a two-entry watch folder configuration. -/
def cfgW : Config := { cfg1 with playlistwatchfolder := "/w0, /w1" }

/-! ## Library of lemmas about the embedded operations -/

theorem splitOnChar_ne_nil (sep : Char) (l : List Char) : splitOnChar sep l ≠ [] := by
  cases l with
  | nil => simp [splitOnChar]
  | cons c cs =>
    unfold splitOnChar
    cases h : splitOnChar sep cs with
    | nil => simp
    | cons t ts =>
      by_cases hc : c = sep <;> simp [hc]

theorem versionOf_eq_of_two {fn : String}
    (hdash : 2 ≤ (splitOnChar '-' fn.toList).length) :
    versionOf fn = some (versionTok fn) := by
  unfold versionOf versionTok
  rcases h : splitOnChar '-' fn.toList with _ | ⟨a, _ | ⟨b, t⟩⟩ <;> rw [h] at hdash
  · simp at hdash
  · simp at hdash
  · rfl

theorem splitOnChar_cons_eq (sep a : Char) {l : List Char} {t : List Char}
    {ts : List (List Char)} (h : splitOnChar sep l = t :: ts) :
    splitOnChar sep (a :: l) = if a = sep then [] :: t :: ts else (a :: t) :: ts := by
  unfold splitOnChar
  rw [h]

theorem mem_of_mem_splitOnChar {sep : Char} :
    ∀ {l seg : List Char}, seg ∈ splitOnChar sep l → ∀ {c : Char}, c ∈ seg → c ∈ l := by
  intro l
  induction l with
  | nil =>
    intro seg hseg c hc
    simp [splitOnChar] at hseg
    subst hseg; simp at hc
  | cons a l ih =>
    intro seg hseg c hc
    rcases h : splitOnChar sep l with _ | ⟨t, ts⟩
    · exact absurd h (splitOnChar_ne_nil sep l)
    · rw [splitOnChar_cons_eq sep a h] at hseg
      by_cases ha : a = sep
      · rw [if_pos ha] at hseg
        rcases List.mem_cons.mp hseg with h1 | h1
        · subst h1; simp at hc
        · exact List.mem_cons_of_mem a (ih (h ▸ h1) hc)
      · rw [if_neg ha] at hseg
        rcases List.mem_cons.mp hseg with h1 | h1
        · subst h1
          rcases List.mem_cons.mp hc with h2 | h2
          · exact h2 ▸ List.mem_cons_self a l
          · exact List.mem_cons_of_mem a (ih (h ▸ List.mem_cons_self t ts) h2)
        · exact List.mem_cons_of_mem a (ih (h ▸ List.mem_cons_of_mem t h1) hc)

theorem splitOnChar_no_sep {sep : Char} :
    ∀ {l : List Char}, sep ∉ l → splitOnChar sep l = [l] := by
  intro l
  induction l with
  | nil => intro; rfl
  | cons a l ih =>
    intro h
    have ha : a ≠ sep := fun he => h (he ▸ List.mem_cons_self a l)
    have hl : sep ∉ l := fun he => h (List.mem_cons_of_mem a he)
    rw [splitOnChar_cons_eq sep a (ih hl), if_neg ha]

theorem lastDot_eq_none : ∀ {l : List Char}, '.' ∉ l → lastDot l = none := by
  intro l
  induction l with
  | nil => intro; rfl
  | cons a l ih =>
    intro h
    have ha : a ≠ '.' := fun he => h (he ▸ List.mem_cons_self a l)
    have hl : '.' ∉ l := fun he => h (List.mem_cons_of_mem a he)
    unfold lastDot
    rw [ih hl, if_neg ha]

theorem splitextExt_eq_empty {s : String} (h : '.' ∉ s.toList) : splitextExt s = "" := by
  unfold splitextExt
  rw [lastDot_eq_none h]

/-- `process_file` under the assumption that the filename has at least one
`'-'` (so version extraction does not raise): the validation cascade. -/
theorem processFile_eq_validate (cfg : Config) (mv : String → Bool) (fs : FS) (dp fn : String)
    (hdash : 2 ≤ (splitOnChar '-' fn.toList).length) :
    processFile cfg mv fs dp fn =
      (match strptimeDMY (dateSegment fn) with
       | none =>
         (fs, [rejRecord cfg fn (versionTok fn) "Invalid date format"],
          Outcome.rejected "Invalid date format" (versionTok fn))
       | some dte =>
         if take3 fn ≠ cfg.playlistnameprefix then
           (fs, [rejRecord cfg fn (versionTok fn) "Invalid prefix"],
            Outcome.rejected "Invalid prefix" (versionTok fn))
         else if lowerStr (splitextExt fn) ≠ cfg.playlistextension then
           (fs, [rejRecord cfg fn (versionTok fn) "Invalid file extension"],
            Outcome.rejected "Invalid file extension" (versionTok fn))
         else if mv (dp ++ "/" ++ fn) then
           (moveFile fs dp fn, [accRecord cfg fn (isoFormat dte) (versionTok fn)],
            Outcome.accepted (isoFormat dte) (versionTok fn))
         else
           (fs, [], Outcome.moveFailed)) := by
  unfold processFile
  rw [versionOf_eq_of_two hdash]

/-- The date-failure branch of the cascade. -/
theorem processFile_eq_dateFail (cfg : Config) (mv : String → Bool) (fs : FS) (dp fn : String)
    (hdash : 2 ≤ (splitOnChar '-' fn.toList).length)
    (hd : strptimeDMY (dateSegment fn) = none) :
    processFile cfg mv fs dp fn =
      (fs, [rejRecord cfg fn (versionTok fn) "Invalid date format"],
       Outcome.rejected "Invalid date format" (versionTok fn)) := by
  rw [processFile_eq_validate cfg mv fs dp fn hdash, hd]

/-- The date-success branch of the cascade. -/
theorem processFile_eq_dateOk (cfg : Config) (mv : String → Bool) (fs : FS) (dp fn : String)
    {dte : Date} (hdash : 2 ≤ (splitOnChar '-' fn.toList).length)
    (hd : strptimeDMY (dateSegment fn) = some dte) :
    processFile cfg mv fs dp fn =
      (if take3 fn ≠ cfg.playlistnameprefix then
        (fs, [rejRecord cfg fn (versionTok fn) "Invalid prefix"],
         Outcome.rejected "Invalid prefix" (versionTok fn))
      else if lowerStr (splitextExt fn) ≠ cfg.playlistextension then
        (fs, [rejRecord cfg fn (versionTok fn) "Invalid file extension"],
         Outcome.rejected "Invalid file extension" (versionTok fn))
      else if mv (dp ++ "/" ++ fn) then
        (moveFile fs dp fn, [accRecord cfg fn (isoFormat dte) (versionTok fn)],
         Outcome.accepted (isoFormat dte) (versionTok fn))
      else
        (fs, [], Outcome.moveFailed)) := by
  rw [processFile_eq_validate cfg mv fs dp fn hdash, hd]

/-- The four possible results of one `process_file` call: a crash (no effect,
no row), a rejection (status-99 row, no move), a failed move (no row, no
move) or an acceptance (the move and the status-0 row). -/
theorem processFile_shape (cfg : Config) (mv : String → Bool) (fs : FS) (dp n : String) :
    processFile cfg mv fs dp n = (fs, [], Outcome.crash) ∨
    (∃ r v, processFile cfg mv fs dp n = (fs, [rejRecord cfg n v r], Outcome.rejected r v)) ∨
    processFile cfg mv fs dp n = (fs, [], Outcome.moveFailed) ∨
    (∃ d v, processFile cfg mv fs dp n =
      (moveFile fs dp n, [accRecord cfg n d v], Outcome.accepted d v)) := by
  unfold processFile
  dsimp only
  rcases versionOf n with _ | v
  · exact Or.inl rfl
  · rcases strptimeDMY (dateSegment n) with _ | dte
    · exact Or.inr (Or.inl ⟨_, _, rfl⟩)
    · split_ifs
      · exact Or.inr (Or.inl ⟨_, _, rfl⟩)
      · exact Or.inr (Or.inl ⟨_, _, rfl⟩)
      · exact Or.inr (Or.inr (Or.inr ⟨_, _, rfl⟩))
      · exact Or.inr (Or.inr (Or.inl rfl))

/-- A crashing call leaves the filesystem untouched and inserts nothing. -/
theorem processFile_eq_of_crash {cfg : Config} {mv : String → Bool} {fs : FS} {dp n : String}
    (h : (processFile cfg mv fs dp n).2.2 = Outcome.crash) :
    processFile cfg mv fs dp n = (fs, [], Outcome.crash) := by
  rcases processFile_shape cfg mv fs dp n with hs | ⟨r, v, hs⟩ | hs | ⟨d, v, hs⟩ <;>
    rw [hs] at h ⊢ <;> simp_all

/-- A failed move leaves the filesystem untouched and inserts nothing. -/
theorem processFile_eq_of_moveFailed {cfg : Config} {mv : String → Bool} {fs : FS} {dp n : String}
    (h : (processFile cfg mv fs dp n).2.2 = Outcome.moveFailed) :
    processFile cfg mv fs dp n = (fs, [], Outcome.moveFailed) := by
  rcases processFile_shape cfg mv fs dp n with hs | ⟨r, v, hs⟩ | hs | ⟨d, v, hs⟩ <;>
    rw [hs] at h ⊢ <;> simp_all

/-- The filesystem after `process_file` is either unchanged or the result of
the one move. -/
theorem processFile_fs_cases (cfg : Config) (mv : String → Bool) (fs : FS) (dp n : String) :
    (processFile cfg mv fs dp n).1 = fs ∨ (processFile cfg mv fs dp n).1 = moveFile fs dp n := by
  rcases processFile_shape cfg mv fs dp n with hs | ⟨r, v, hs⟩ | hs | ⟨d, v, hs⟩ <;>
    rw [hs] <;> [exact Or.inl rfl; exact Or.inl rfl; exact Or.inl rfl; exact Or.inr rfl]

/-- `List.lookup` on a cons cell, with a propositional condition. -/
theorem lookup_cons_ite {β : Type} (a k : String) (v : β) (es : List (String × β)) :
    List.lookup a ((k, v) :: es) = if a = k then some v else List.lookup a es := by
  rw [List.lookup_cons]
  by_cases h : a = k
  · rw [beq_iff_eq.mpr h, if_pos h]
  · rw [beq_eq_false_iff_ne.mpr h, if_neg h]

/-- Looking a directory up after updating one directory's listing. -/
theorem lookup_map_update (dirs : List (String × List (String × Bool))) (dp dirp : String)
    (f : List (String × Bool) → List (String × Bool)) :
    (dirs.map (fun e => if e.1 = dp then (e.1, f e.2) else e)).lookup dirp =
      if dirp = dp then (dirs.lookup dirp).map f else dirs.lookup dirp := by
  induction dirs with
  | nil => by_cases h : dirp = dp <;> simp [h, List.lookup]
  | cons e rest ih =>
    obtain ⟨k, v⟩ := e
    rw [List.map_cons]
    by_cases hk : k = dp
    · rw [show (if (k, v).1 = dp then ((k, v).1, f (k, v).2) else (k, v)) = (k, f v) by
        simp [hk]]
      rw [lookup_cons_ite, lookup_cons_ite]
      by_cases hp : dirp = k
      · have hpd : dirp = dp := hp.trans hk
        rw [if_pos hp, if_pos hpd, if_pos hp]
        rfl
      · have hpd : dirp = dp ↔ False := by
          constructor
          · intro h2; exact hp (h2.trans hk.symm)
          · exact False.elim
        rw [if_neg hp, ih]
        by_cases h2 : dirp = dp
        · exact absurd h2 (hpd.mp ∘ id)
        · rw [if_neg h2, if_neg h2, if_neg hp]
    · rw [show (if (k, v).1 = dp then ((k, v).1, f (k, v).2) else (k, v)) = (k, v) by
        simp [hk]]
      rw [lookup_cons_ite, lookup_cons_ite]
      by_cases hp : dirp = k
      · have hpd : ¬ dirp = dp := fun h2 => hk (hp.symm.trans h2)
        rw [if_pos hp, if_neg hpd, if_pos hp]
      · rw [if_neg hp, ih]
        by_cases h2 : dirp = dp
        · rw [if_pos h2, if_pos h2, if_neg hp]
        · rw [if_neg h2, if_neg h2, if_neg hp]

/-- Looking a different name up after filtering one name out. -/
theorem lookup_filter_ne (ls : List (String × Bool)) {n fn : String} (h : n ≠ fn) :
    (ls.filter (fun x => x.1 ≠ fn)).lookup n = ls.lookup n := by
  induction ls with
  | nil => rfl
  | cons e rest ih =>
    obtain ⟨k, v⟩ := e
    rw [List.filter_cons]
    by_cases hk : k = fn
    · have hnk : n ≠ k := fun he => h (he.trans hk)
      rw [if_neg (by simp [hk]), ih, lookup_cons_ite, if_neg hnk]
    · rw [if_pos (by simp [hk]), lookup_cons_ite, lookup_cons_ite]
      by_cases hn : n = k
      · rw [if_pos hn, if_pos hn]
      · rw [if_neg hn, if_neg hn, ih]

/-- Moving `dp/n` does not disturb the entry of any other path `dirp/nm`. -/
theorem fileEntry_moveFile_other {fs : FS} {dp n dirp nm : String}
    (h : dirp ++ "/" ++ nm ≠ dp ++ "/" ++ n) :
    fileEntry (moveFile fs dp n) dirp nm = fileEntry fs dirp nm := by
  unfold fileEntry moveFile
  dsimp only
  rw [lookup_map_update]
  by_cases hd : dirp = dp
  · rw [if_pos hd]
    have hnm : nm ≠ n := fun he => h (by rw [hd, he])
    cases hl : fs.dirs.lookup dirp with
    | none => rfl
    | some ls => exact lookup_filter_ne ls hnm
  · rw [if_neg hd]

/-- `process_file` on one path does not disturb the directory entry of any
other path. -/
theorem fileEntry_processFile_other (cfg : Config) (mv : String → Bool) (fs : FS)
    {dp n dirp nm : String} (h : dirp ++ "/" ++ nm ≠ dp ++ "/" ++ n) :
    fileEntry (processFile cfg mv fs dp n).1 dirp nm = fileEntry fs dirp nm := by
  rcases processFile_fs_cases cfg mv fs dp n with hc | hc <;> rw [hc]
  exact fileEntry_moveFile_other h

/-! ## Round-trip of zero-padded eight-digit date segments -/

theorem digitC_dval {c : Char} (h1 : 48 ≤ c.toNat) (h2 : c.toNat ≤ 57) :
    digitC (dval c) = c := by
  unfold digitC dval
  rw [show 48 + (c.toNat - 48) = c.toNat by omega, Char.ofNat_toNat]

theorem matchMY_sound :
    ∀ {cands : List (Nat × List Char)} {m y : Nat} {r3 : List Char},
      matchMY cands = some (m, y, r3) →
      ∃ r2, (m, r2) ∈ cands ∧ year4 r2 = some (y, r3) := by
  intro cands
  induction cands with
  | nil => intro m y r3 h; simp [matchMY] at h
  | cons p rest ih =>
    intro m y r3 h
    obtain ⟨m', r2'⟩ := p
    unfold matchMY at h
    cases hy : year4 r2' with
    | some q =>
      obtain ⟨y', r3'⟩ := q
      rw [hy] at h
      dsimp only at h
      simp only [Option.some.injEq, Prod.mk.injEq] at h
      obtain ⟨h1, h2, h3⟩ := h
      subst h1; subst h2; subst h3
      exact ⟨r2', List.mem_cons_self _ _, hy⟩
    | none =>
      rw [hy] at h
      obtain ⟨r2, hmem, hy4⟩ := ih h
      exact ⟨r2, List.mem_cons_of_mem _ hmem, hy4⟩

theorem matchDay_sound :
    ∀ {cands : List (Nat × List Char)} {d m y : Nat} {r3 : List Char},
      matchDay cands = some (d, m, y, r3) →
      ∃ r1, (d, r1) ∈ cands ∧ matchMY (monthCands r1) = some (m, y, r3) := by
  intro cands
  induction cands with
  | nil => intro d m y r3 h; simp [matchDay] at h
  | cons p rest ih =>
    intro d m y r3 h
    obtain ⟨d', r1'⟩ := p
    unfold matchDay at h
    cases hmy : matchMY (monthCands r1') with
    | some q =>
      obtain ⟨m', y', r3'⟩ := q
      rw [hmy] at h
      dsimp only at h
      simp only [Option.some.injEq, Prod.mk.injEq] at h
      obtain ⟨h1, h2, h3, h4⟩ := h
      subst h1; subst h2; subst h3; subst h4
      exact ⟨r1', List.mem_cons_self _ _, hmy⟩
    | none =>
      rw [hmy] at h
      obtain ⟨r1, hmem, hmy'⟩ := ih h
      exact ⟨r1, List.mem_cons_of_mem _ hmem, hmy'⟩

theorem dayCands_cases {d : Nat} {r cs : List Char} (h : (d, r) ∈ dayCands cs) :
    (∃ a, cs = a :: r) ∨ (∃ a b, cs = a :: b :: r ∧ pad2 d = [a, b]) := by
  match cs with
  | [] => simp [dayCands] at h
  | [a] =>
    simp only [dayCands] at h
    split_ifs at h with h1
    · simp only [List.mem_singleton, Prod.mk.injEq] at h
      exact Or.inl ⟨a, by rw [h.2]⟩
    · simp at h
  | a :: b :: rest =>
    simp only [dayCands, List.mem_append] at h
    rcases h with ((h | h) | h) | h
    · rw [List.mem_ite_nil_right] at h
      obtain ⟨h1, h2⟩ := h
      simp only [List.mem_singleton, Prod.mk.injEq] at h2
      obtain ⟨hd, hr⟩ := h2
      subst hd; subst hr
      refine Or.inr ⟨a, b, rfl, ?_⟩
      rcases h1.2 with hb | hb <;> rw [h1.1, hb] <;> decide
    · rw [List.mem_ite_nil_right] at h
      obtain ⟨h1, h2⟩ := h
      simp only [List.mem_singleton, Prod.mk.injEq] at h2
      obtain ⟨hd, hr⟩ := h2
      subst hd; subst hr
      refine Or.inr ⟨a, b, rfl, ?_⟩
      have hb : 48 ≤ b.toNat ∧ b.toNat ≤ 57 := by simpa [isDigitC] using h1.2
      rcases h1.1 with ha | ha <;> subst ha <;> unfold pad2
      · rw [show (10 * dval '1' + dval b) / 10 = dval '1' by unfold dval; omega,
          show (10 * dval '1' + dval b) % 10 = dval b by unfold dval; omega,
          digitC_dval hb.1 hb.2]
        rfl
      · rw [show (10 * dval '2' + dval b) / 10 = dval '2' by unfold dval; omega,
          show (10 * dval '2' + dval b) % 10 = dval b by unfold dval; omega,
          digitC_dval hb.1 hb.2]
        rfl
    · rw [List.mem_ite_nil_right] at h
      obtain ⟨h1, h2⟩ := h
      simp only [List.mem_singleton, Prod.mk.injEq] at h2
      obtain ⟨hd, hr⟩ := h2
      subst hd; subst hr
      refine Or.inr ⟨a, b, rfl, ?_⟩
      have hb : 49 ≤ b.toNat ∧ b.toNat ≤ 57 := by simpa [isDigit19] using h1.2
      rw [h1.1]
      unfold pad2
      rw [show dval b / 10 = 0 by unfold dval; omega,
        show dval b % 10 = dval b by unfold dval; omega,
        digitC_dval (by omega) hb.2]
      rfl
    · rw [List.mem_ite_nil_right] at h
      obtain ⟨h1, h2⟩ := h
      simp only [List.mem_singleton, Prod.mk.injEq] at h2
      exact Or.inl ⟨a, by rw [h2.2]⟩

theorem monthCands_cases {m : Nat} {r cs : List Char} (h : (m, r) ∈ monthCands cs) :
    (∃ a, cs = a :: r) ∨ (∃ a b, cs = a :: b :: r ∧ pad2 m = [a, b]) := by
  match cs with
  | [] => simp [monthCands] at h
  | [a] =>
    simp only [monthCands] at h
    split_ifs at h with h1
    · simp only [List.mem_singleton, Prod.mk.injEq] at h
      exact Or.inl ⟨a, by rw [h.2]⟩
    · simp at h
  | a :: b :: rest =>
    simp only [monthCands, List.mem_append] at h
    rcases h with (h | h) | h
    · rw [List.mem_ite_nil_right] at h
      obtain ⟨h1, h2⟩ := h
      simp only [List.mem_singleton, Prod.mk.injEq] at h2
      obtain ⟨hd, hr⟩ := h2
      subst hd; subst hr
      refine Or.inr ⟨a, b, rfl, ?_⟩
      rcases h1.2 with hb | hb | hb <;> rw [h1.1, hb] <;> decide
    · rw [List.mem_ite_nil_right] at h
      obtain ⟨h1, h2⟩ := h
      simp only [List.mem_singleton, Prod.mk.injEq] at h2
      obtain ⟨hd, hr⟩ := h2
      subst hd; subst hr
      refine Or.inr ⟨a, b, rfl, ?_⟩
      have hb : 49 ≤ b.toNat ∧ b.toNat ≤ 57 := by simpa [isDigit19] using h1.2
      rw [h1.1]
      unfold pad2
      rw [show dval b / 10 = 0 by unfold dval; omega,
        show dval b % 10 = dval b by unfold dval; omega,
        digitC_dval (by omega) hb.2]
      rfl
    · rw [List.mem_ite_nil_right] at h
      obtain ⟨h1, h2⟩ := h
      simp only [List.mem_singleton, Prod.mk.injEq] at h2
      exact Or.inl ⟨a, by rw [h2.2]⟩

theorem year4_eq {cs r : List Char} {y : Nat} (h : year4 cs = some (y, r)) :
    ∃ a b c d, cs = a :: b :: c :: d :: r ∧ pad4 y = [a, b, c, d] := by
  match cs with
  | [] => simp [year4] at h
  | [a] => simp [year4] at h
  | [a, b] => simp [year4] at h
  | [a, b, c] => simp [year4] at h
  | a :: b :: c :: d :: rest =>
    simp only [year4] at h
    split_ifs at h with h1
    · simp only [Option.some.injEq, Prod.mk.injEq] at h
      obtain ⟨hy, hr⟩ := h
      subst hy; subst hr
      refine ⟨a, b, c, d, rfl, ?_⟩
      obtain ⟨ha, hb, hc, hd⟩ := h1
      have ha' : 48 ≤ a.toNat ∧ a.toNat ≤ 57 := by simpa [isDigitC] using ha
      have hb' : 48 ≤ b.toNat ∧ b.toNat ≤ 57 := by simpa [isDigitC] using hb
      have hc' : 48 ≤ c.toNat ∧ c.toNat ≤ 57 := by simpa [isDigitC] using hc
      have hd' : 48 ≤ d.toNat ∧ d.toNat ≤ 57 := by simpa [isDigitC] using hd
      unfold pad4
      rw [show ((dval a * 10 + dval b) * 10 + dval c) * 10 + dval d =
            1000 * dval a + 100 * dval b + 10 * dval c + dval d by ring]
      rw [show (1000 * dval a + 100 * dval b + 10 * dval c + dval d) / 1000 = dval a by
        unfold dval; omega]
      rw [show (1000 * dval a + 100 * dval b + 10 * dval c + dval d) / 100 % 10 = dval b by
        unfold dval; omega]
      rw [show (1000 * dval a + 100 * dval b + 10 * dval c + dval d) / 10 % 10 = dval c by
        unfold dval; omega]
      rw [show (1000 * dval a + 100 * dval b + 10 * dval c + dval d) % 10 = dval d by
        unfold dval; omega]
      rw [digitC_dval ha'.1 ha'.2, digitC_dval hb'.1 hb'.2, digitC_dval hc'.1 hc'.2,
        digitC_dval hd'.1 hd'.2]

/-- Against an eight-character input, a full-consumption match of `%d%m%Y`
decomposes it as zero-padded day, month and four-digit year. -/
theorem firstMatch_eight {cs : List Char} {d m y : Nat} (hlen : cs.length = 8)
    (hm : firstMatchDMY cs = some (d, m, y, [])) :
    pad2 d ++ pad2 m ++ pad4 y = cs := by
  obtain ⟨r1, hd_mem, hmy⟩ := matchDay_sound hm
  obtain ⟨r2, hm_mem, hy⟩ := matchMY_sound hmy
  obtain ⟨a, b, c, dd, hr2, hpad4⟩ := year4_eq hy
  rcases dayCands_cases hd_mem with ⟨a1, hcs⟩ | ⟨a1, b1, hcs, hpd⟩ <;>
    rcases monthCands_cases hm_mem with ⟨a2, hr1⟩ | ⟨a2, b2, hr1, hpm⟩
  · rw [hcs, hr1, hr2] at hlen; simp at hlen
  · rw [hcs, hr1, hr2] at hlen; simp at hlen
  · rw [hcs, hr1, hr2] at hlen; simp at hlen
  · rw [hcs, hr1, hr2, hpd, hpm, hpad4]
    rfl

/-! ## The inner scan loop: step equations and invariants -/

theorem pdf_cons_skip {cfg : Config} {mv : String → Bool} {dp n : String} {rest : List String}
    {st : State} (hg : ¬(isfileIn st.fs dp n = true ∧ (dp ++ "/" ++ n) ∉ st.processed)) :
    processDirFiles cfg mv dp (n :: rest) st = processDirFiles cfg mv dp rest st := by
  conv_lhs => rw [processDirFiles]
  rw [if_neg hg]

theorem pdf_cons_crash {cfg : Config} {mv : String → Bool} {dp n : String} {rest : List String}
    {st : State} (hg : isfileIn st.fs dp n = true ∧ (dp ++ "/" ++ n) ∉ st.processed)
    (hc : (processFile cfg mv st.fs dp n).2.2 = Outcome.crash) :
    processDirFiles cfg mv dp (n :: rest) st =
      ({ st with fs := (processFile cfg mv st.fs dp n).1 },
       [⟨dp, n, (processFile cfg mv st.fs dp n).2.2, (processFile cfg mv st.fs dp n).2.1⟩],
       true) := by
  conv_lhs => rw [processDirFiles]
  rw [if_pos hg, if_pos hc]

theorem pdf_cons_step {cfg : Config} {mv : String → Bool} {dp n : String} {rest : List String}
    {st : State} (hg : isfileIn st.fs dp n = true ∧ (dp ++ "/" ++ n) ∉ st.processed)
    (hc : ¬(processFile cfg mv st.fs dp n).2.2 = Outcome.crash) :
    processDirFiles cfg mv dp (n :: rest) st =
      ((processDirFiles cfg mv dp rest (stepState cfg mv dp n st)).1,
       ⟨dp, n, (processFile cfg mv st.fs dp n).2.2, (processFile cfg mv st.fs dp n).2.1⟩ ::
         (processDirFiles cfg mv dp rest (stepState cfg mv dp n st)).2.1,
       (processDirFiles cfg mv dp rest (stepState cfg mv dp n st)).2.2) := by
  conv_lhs => rw [processDirFiles]
  rw [if_pos hg, if_neg hc]

theorem pdf_processed_mono (cfg : Config) (mv : String → Bool) (dp : String) :
    ∀ (names : List String) (st : State),
      st.processed ⊆ (processDirFiles cfg mv dp names st).1.processed := by
  intro names
  induction names with
  | nil => intro st; exact List.Subset.refl _
  | cons n rest ih =>
    intro st
    by_cases hg : isfileIn st.fs dp n = true ∧ (dp ++ "/" ++ n) ∉ st.processed
    · by_cases hc : (processFile cfg mv st.fs dp n).2.2 = Outcome.crash
      · rw [pdf_cons_crash hg hc]
        exact List.Subset.refl _
      · rw [pdf_cons_step hg hc]
        exact List.Subset.trans (List.subset_append_left _ _) (ih (stepState cfg mv dp n st))
    · rw [pdf_cons_skip hg]
      exact ih st

theorem pdf_event_not_processed (cfg : Config) (mv : String → Bool) (dp : String) :
    ∀ (names : List String) (st : State) (e : Event),
      e ∈ (processDirFiles cfg mv dp names st).2.1 → e.path ∉ st.processed := by
  intro names
  induction names with
  | nil =>
    intro st e he
    simp [processDirFiles] at he
  | cons n rest ih =>
    intro st e he
    by_cases hg : isfileIn st.fs dp n = true ∧ (dp ++ "/" ++ n) ∉ st.processed
    · by_cases hc : (processFile cfg mv st.fs dp n).2.2 = Outcome.crash
      · rw [pdf_cons_crash hg hc] at he
        rcases List.mem_cons.mp he with he1 | he1
        · subst he1; exact hg.2
        · simp at he1
      · rw [pdf_cons_step hg hc] at he
        rcases List.mem_cons.mp he with he1 | he1
        · subst he1; exact hg.2
        · intro hmem
          exact ih (stepState cfg mv dp n st) e he1 (List.mem_append_left _ hmem)
    · rw [pdf_cons_skip hg] at he
      exact ih st e he

theorem pdf_event_in_processed (cfg : Config) (mv : String → Bool) (dp : String) :
    ∀ (names : List String) (st : State) (e : Event),
      e ∈ (processDirFiles cfg mv dp names st).2.1 → e.outcome ≠ Outcome.crash →
      e.path ∈ (processDirFiles cfg mv dp names st).1.processed := by
  intro names
  induction names with
  | nil =>
    intro st e he
    simp [processDirFiles] at he
  | cons n rest ih =>
    intro st e he hnc
    by_cases hg : isfileIn st.fs dp n = true ∧ (dp ++ "/" ++ n) ∉ st.processed
    · by_cases hc : (processFile cfg mv st.fs dp n).2.2 = Outcome.crash
      · rw [pdf_cons_crash hg hc] at he
        rcases List.mem_cons.mp he with he1 | he1
        · subst he1; exact absurd hc hnc
        · simp at he1
      · rw [pdf_cons_step hg hc] at he ⊢
        rcases List.mem_cons.mp he with he1 | he1
        · subst he1
          exact pdf_processed_mono cfg mv dp rest (stepState cfg mv dp n st)
            (List.mem_append_right _ (List.mem_singleton.mpr rfl))
        · exact ih (stepState cfg mv dp n st) e he1 hnc
    · rw [pdf_cons_skip hg] at he ⊢
      exact ih st e he hnc

theorem pdf_fileEntry_preserved (cfg : Config) (mv : String → Bool) (dp : String) :
    ∀ (names : List String) (st : State) (dirp nm : String),
      (dirp ++ "/" ++ nm) ∈ st.processed →
      fileEntry (processDirFiles cfg mv dp names st).1.fs dirp nm = fileEntry st.fs dirp nm := by
  intro names
  induction names with
  | nil => intro st dirp nm _; rfl
  | cons n rest ih =>
    intro st dirp nm hp
    by_cases hg : isfileIn st.fs dp n = true ∧ (dp ++ "/" ++ n) ∉ st.processed
    · have hne : dirp ++ "/" ++ nm ≠ dp ++ "/" ++ n := fun he => hg.2 (he ▸ hp)
      by_cases hc : (processFile cfg mv st.fs dp n).2.2 = Outcome.crash
      · rw [pdf_cons_crash hg hc]
        show fileEntry (processFile cfg mv st.fs dp n).1 dirp nm = fileEntry st.fs dirp nm
        exact fileEntry_processFile_other cfg mv st.fs hne
      · rw [pdf_cons_step hg hc]
        rw [ih (stepState cfg mv dp n st) dirp nm (List.mem_append_left _ hp)]
        exact fileEntry_processFile_other cfg mv st.fs hne
    · rw [pdf_cons_skip hg]
      exact ih st dirp nm hp

/-- The dir-level core of the failed-move property: a dispatched file whose
move failed produced no audit row, its path went into `processed_files`, and
its directory entry is untouched at the end of the inner loop. -/
theorem pdf_moveFailed_props (cfg : Config) (mv : String → Bool) (dp : String) :
    ∀ (names : List String) (st : State) (e : Event),
      e ∈ (processDirFiles cfg mv dp names st).2.1 → e.outcome = Outcome.moveFailed →
      e.records = [] ∧ e.path ∈ (processDirFiles cfg mv dp names st).1.processed ∧
        fileEntry (processDirFiles cfg mv dp names st).1.fs e.dir e.name = some true := by
  intro names
  induction names with
  | nil =>
    intro st e he
    simp [processDirFiles] at he
  | cons n rest ih =>
    intro st e he hout
    by_cases hg : isfileIn st.fs dp n = true ∧ (dp ++ "/" ++ n) ∉ st.processed
    · by_cases hc : (processFile cfg mv st.fs dp n).2.2 = Outcome.crash
      · rw [pdf_cons_crash hg hc] at he
        rcases List.mem_cons.mp he with he1 | he1
        · subst he1
          dsimp only at hout
          rw [hout] at hc
          exact absurd hc (by simp)
        · simp at he1
      · rw [pdf_cons_step hg hc] at he ⊢
        rcases List.mem_cons.mp he with he1 | he1
        · subst he1
          dsimp only [Event.path] at hout ⊢
          have hpf := processFile_eq_of_moveFailed hout
          have hin : (dp ++ "/" ++ n) ∈ (stepState cfg mv dp n st).processed :=
            List.mem_append_right _ (List.mem_singleton.mpr rfl)
          refine ⟨by rw [hpf], pdf_processed_mono cfg mv dp rest _ hin, ?_⟩
          rw [pdf_fileEntry_preserved cfg mv dp rest (stepState cfg mv dp n st) dp n hin]
          show fileEntry (processFile cfg mv st.fs dp n).1 dp n = some true
          rw [hpf]
          show fileEntry st.fs dp n = some true
          have := hg.1
          unfold isfileIn at this
          exact eq_of_beq this
        · exact ih (stepState cfg mv dp n st) e he1 hout
    · rw [pdf_cons_skip hg] at he ⊢
      exact ih st e he hout

/-! ## One full pass (`scan_and_process_files`): step equations and invariants -/

theorem scan_cons_skip {cfg : Config} {mv : String → Bool} {d : String} {rest : List String}
    {st : State} (hg : ¬ dirExists st.fs d = true) :
    scanDirs cfg mv (d :: rest) st = scanDirs cfg mv rest st := by
  conv_lhs => rw [scanDirs]
  rw [if_neg hg]

theorem scan_cons_crash {cfg : Config} {mv : String → Bool} {d : String} {rest : List String}
    {st : State} (hg : dirExists st.fs d = true)
    (hc : (processDirFiles cfg mv d (listingOf st.fs d) st).2.2 = true) :
    scanDirs cfg mv (d :: rest) st =
      ((processDirFiles cfg mv d (listingOf st.fs d) st).1,
       (processDirFiles cfg mv d (listingOf st.fs d) st).2.1, true) := by
  conv_lhs => rw [scanDirs]
  rw [if_pos hg, if_pos hc]

theorem scan_cons_step {cfg : Config} {mv : String → Bool} {d : String} {rest : List String}
    {st : State} (hg : dirExists st.fs d = true)
    (hc : ¬(processDirFiles cfg mv d (listingOf st.fs d) st).2.2 = true) :
    scanDirs cfg mv (d :: rest) st =
      ((scanDirs cfg mv rest (processDirFiles cfg mv d (listingOf st.fs d) st).1).1,
       (processDirFiles cfg mv d (listingOf st.fs d) st).2.1 ++
         (scanDirs cfg mv rest (processDirFiles cfg mv d (listingOf st.fs d) st).1).2.1,
       (scanDirs cfg mv rest (processDirFiles cfg mv d (listingOf st.fs d) st).1).2.2) := by
  conv_lhs => rw [scanDirs]
  rw [if_pos hg, if_neg hc]

theorem scan_processed_mono (cfg : Config) (mv : String → Bool) :
    ∀ (wds : List String) (st : State),
      st.processed ⊆ (scanDirs cfg mv wds st).1.processed := by
  intro wds
  induction wds with
  | nil => intro st; exact List.Subset.refl _
  | cons d rest ih =>
    intro st
    by_cases hg : dirExists st.fs d = true
    · by_cases hc : (processDirFiles cfg mv d (listingOf st.fs d) st).2.2 = true
      · rw [scan_cons_crash hg hc]
        exact pdf_processed_mono cfg mv d _ st
      · rw [scan_cons_step hg hc]
        exact List.Subset.trans (pdf_processed_mono cfg mv d _ st) (ih _)
    · rw [scan_cons_skip hg]
      exact ih st

theorem scan_event_not_processed (cfg : Config) (mv : String → Bool) :
    ∀ (wds : List String) (st : State) (e : Event),
      e ∈ (scanDirs cfg mv wds st).2.1 → e.path ∉ st.processed := by
  intro wds
  induction wds with
  | nil =>
    intro st e he
    simp [scanDirs] at he
  | cons d rest ih =>
    intro st e he
    by_cases hg : dirExists st.fs d = true
    · by_cases hc : (processDirFiles cfg mv d (listingOf st.fs d) st).2.2 = true
      · rw [scan_cons_crash hg hc] at he
        exact pdf_event_not_processed cfg mv d _ st e he
      · rw [scan_cons_step hg hc] at he
        rcases List.mem_append.mp he with he1 | he1
        · exact pdf_event_not_processed cfg mv d _ st e he1
        · intro hmem
          exact ih _ e he1 (pdf_processed_mono cfg mv d _ st hmem)
    · rw [scan_cons_skip hg] at he
      exact ih st e he

theorem scan_event_in_processed (cfg : Config) (mv : String → Bool) :
    ∀ (wds : List String) (st : State) (e : Event),
      e ∈ (scanDirs cfg mv wds st).2.1 → e.outcome ≠ Outcome.crash →
      e.path ∈ (scanDirs cfg mv wds st).1.processed := by
  intro wds
  induction wds with
  | nil =>
    intro st e he
    simp [scanDirs] at he
  | cons d rest ih =>
    intro st e he hnc
    by_cases hg : dirExists st.fs d = true
    · by_cases hc : (processDirFiles cfg mv d (listingOf st.fs d) st).2.2 = true
      · rw [scan_cons_crash hg hc] at he ⊢
        exact pdf_event_in_processed cfg mv d _ st e he hnc
      · rw [scan_cons_step hg hc] at he ⊢
        rcases List.mem_append.mp he with he1 | he1
        · exact scan_processed_mono cfg mv rest _
            (pdf_event_in_processed cfg mv d _ st e he1 hnc)
        · exact ih _ e he1 hnc
    · rw [scan_cons_skip hg] at he ⊢
      exact ih st e he hnc

theorem scan_fileEntry_preserved (cfg : Config) (mv : String → Bool) :
    ∀ (wds : List String) (st : State) (dirp nm : String),
      (dirp ++ "/" ++ nm) ∈ st.processed →
      fileEntry (scanDirs cfg mv wds st).1.fs dirp nm = fileEntry st.fs dirp nm := by
  intro wds
  induction wds with
  | nil => intro st dirp nm _; rfl
  | cons d rest ih =>
    intro st dirp nm hp
    by_cases hg : dirExists st.fs d = true
    · by_cases hc : (processDirFiles cfg mv d (listingOf st.fs d) st).2.2 = true
      · rw [scan_cons_crash hg hc]
        exact pdf_fileEntry_preserved cfg mv d _ st dirp nm hp
      · rw [scan_cons_step hg hc]
        rw [ih _ dirp nm (pdf_processed_mono cfg mv d _ st hp)]
        exact pdf_fileEntry_preserved cfg mv d _ st dirp nm hp
    · rw [scan_cons_skip hg]
      exact ih st dirp nm hp

/-- The pass-level core of the failed-move property. -/
theorem scan_moveFailed_props (cfg : Config) (mv : String → Bool) :
    ∀ (wds : List String) (st : State) (e : Event),
      e ∈ (scanDirs cfg mv wds st).2.1 → e.outcome = Outcome.moveFailed →
      e.records = [] ∧ e.path ∈ (scanDirs cfg mv wds st).1.processed ∧
        fileEntry (scanDirs cfg mv wds st).1.fs e.dir e.name = some true := by
  intro wds
  induction wds with
  | nil =>
    intro st e he
    simp [scanDirs] at he
  | cons d rest ih =>
    intro st e he hout
    by_cases hg : dirExists st.fs d = true
    · by_cases hc : (processDirFiles cfg mv d (listingOf st.fs d) st).2.2 = true
      · rw [scan_cons_crash hg hc] at he ⊢
        exact pdf_moveFailed_props cfg mv d _ st e he hout
      · rw [scan_cons_step hg hc] at he ⊢
        rcases List.mem_append.mp he with he1 | he1
        · obtain ⟨hr, hin, hfe⟩ := pdf_moveFailed_props cfg mv d _ st e he1 hout
          refine ⟨hr, scan_processed_mono cfg mv rest _ hin, ?_⟩
          rw [scan_fileEntry_preserved cfg mv rest _ e.dir e.name hin]
          exact hfe
        · exact ih _ e he1 hout
    · rw [scan_cons_skip hg] at he ⊢
      exact ih st e he hout

/-! ## The polling loop: step equations and invariants across passes -/

theorem run_cons_crash {cfg : Config} {mv : String → Bool} {wds : List String} {st : State}
    {arr : List (String × String)} {rest : List (List (String × String))}
    (hc : (scanDirs cfg mv wds (arrState st arr)).2.2 = true) :
    runPasses cfg mv wds st (arr :: rest) =
      ((scanDirs cfg mv wds (arrState st arr)).1,
       [(scanDirs cfg mv wds (arrState st arr)).2.1], true) := by
  conv_lhs => rw [runPasses]
  rw [if_pos hc]

theorem run_cons_step {cfg : Config} {mv : String → Bool} {wds : List String} {st : State}
    {arr : List (String × String)} {rest : List (List (String × String))}
    (hc : ¬(scanDirs cfg mv wds (arrState st arr)).2.2 = true) :
    runPasses cfg mv wds st (arr :: rest) =
      ((runPasses cfg mv wds (scanDirs cfg mv wds (arrState st arr)).1 rest).1,
       (scanDirs cfg mv wds (arrState st arr)).2.1 ::
         (runPasses cfg mv wds (scanDirs cfg mv wds (arrState st arr)).1 rest).2.1,
       (runPasses cfg mv wds (scanDirs cfg mv wds (arrState st arr)).1 rest).2.2) := by
  conv_lhs => rw [runPasses]
  rw [if_neg hc]

theorem run_processed_mono (cfg : Config) (mv : String → Bool) (wds : List String) :
    ∀ (arrs : List (List (String × String))) (st : State),
      st.processed ⊆ (runPasses cfg mv wds st arrs).1.processed := by
  intro arrs
  induction arrs with
  | nil => intro st; exact List.Subset.refl _
  | cons arr rest ih =>
    intro st
    by_cases hc : (scanDirs cfg mv wds (arrState st arr)).2.2 = true
    · rw [run_cons_crash hc]
      exact scan_processed_mono cfg mv wds (arrState st arr)
    · rw [run_cons_step hc]
      exact List.Subset.trans (scan_processed_mono cfg mv wds (arrState st arr)) (ih _)

theorem run_pass_not_processed (cfg : Config) (mv : String → Bool) (wds : List String) :
    ∀ (arrs : List (List (String × String))) (st : State) (j : Nat) (pj : List Event)
      (e : Event),
      (runPasses cfg mv wds st arrs).2.1.get? j = some pj → e ∈ pj →
      e.path ∉ st.processed := by
  intro arrs
  induction arrs with
  | nil =>
    intro st j pj e hj
    simp [runPasses] at hj
  | cons arr rest ih =>
    intro st j pj e hj he
    by_cases hc : (scanDirs cfg mv wds (arrState st arr)).2.2 = true
    · rw [run_cons_crash hc] at hj
      cases j with
      | zero =>
        simp at hj
        subst hj
        exact scan_event_not_processed cfg mv wds (arrState st arr) e he
      | succ j' => simp at hj
    · rw [run_cons_step hc] at hj
      cases j with
      | zero =>
        simp at hj
        subst hj
        exact scan_event_not_processed cfg mv wds (arrState st arr) e he
      | succ j' =>
        rw [List.get?_cons_succ] at hj
        intro hmem
        exact ih _ j' pj e hj he
          (scan_processed_mono cfg mv wds (arrState st arr) hmem)

theorem run_pass_in_final_processed (cfg : Config) (mv : String → Bool) (wds : List String) :
    ∀ (arrs : List (List (String × String))) (st : State) (i : Nat) (pi : List Event)
      (e : Event),
      (runPasses cfg mv wds st arrs).2.1.get? i = some pi → e ∈ pi →
      e.outcome ≠ Outcome.crash →
      e.path ∈ (runPasses cfg mv wds st arrs).1.processed := by
  intro arrs
  induction arrs with
  | nil =>
    intro st i pi e hi
    simp [runPasses] at hi
  | cons arr rest ih =>
    intro st i pi e hi he hnc
    by_cases hc : (scanDirs cfg mv wds (arrState st arr)).2.2 = true
    · rw [run_cons_crash hc] at hi ⊢
      cases i with
      | zero =>
        simp at hi
        subst hi
        exact scan_event_in_processed cfg mv wds (arrState st arr) e he hnc
      | succ i' => simp at hi
    · rw [run_cons_step hc] at hi ⊢
      cases i with
      | zero =>
        simp at hi
        subst hi
        exact run_processed_mono cfg mv wds rest _
          (scan_event_in_processed cfg mv wds (arrState st arr) e he hnc)
      | succ i' =>
        rw [List.get?_cons_succ] at hi
        exact ih _ i' pi e hi he hnc

/-- A file dispatched in pass `i` with a non-crashing outcome is never
dispatched again in any strictly later pass of the same run. -/
theorem run_no_redispatch (cfg : Config) (mv : String → Bool) (wds : List String) :
    ∀ (arrs : List (List (String × String))) (st : State) (i j : Nat)
      (pi pj : List Event) (e e' : Event),
      (runPasses cfg mv wds st arrs).2.1.get? i = some pi →
      (runPasses cfg mv wds st arrs).2.1.get? j = some pj →
      i < j → e ∈ pi → e.outcome ≠ Outcome.crash → e' ∈ pj →
      e'.path ≠ e.path := by
  intro arrs
  induction arrs with
  | nil =>
    intro st i j pi pj e e' hi
    simp [runPasses] at hi
  | cons arr rest ih =>
    intro st i j pi pj e e' hi hj hij he hnc he'
    by_cases hc : (scanDirs cfg mv wds (arrState st arr)).2.2 = true
    · rw [run_cons_crash hc] at hi hj
      cases j with
      | zero => omega
      | succ j' => simp at hj
    · rw [run_cons_step hc] at hi hj
      cases i with
      | zero =>
        simp at hi
        subst hi
        cases j with
        | zero => omega
        | succ j' =>
          rw [List.get?_cons_succ] at hj
          have hpath : e.path ∈ (scanDirs cfg mv wds (arrState st arr)).1.processed :=
            scan_event_in_processed cfg mv wds (arrState st arr) e he hnc
          have h2 := run_pass_not_processed cfg mv wds rest _ j' pj e' hj he'
          exact fun heq => h2 (heq ▸ hpath)
      | succ i' =>
        cases j with
        | zero => omega
        | succ j' =>
          rw [List.get?_cons_succ] at hi hj
          exact ih _ i' j' pi pj e e' hi hj (by omega) he hnc he'

/-! ## Claim theorems: concrete evaluations -/

/-- C8: with `prefix="CH1"`, `extension=".pls"`, `date_format="%d%m%Y"`, the
filename `CH1X01012024-003.pls` is accepted: parsed date `2024-01-01`,
version `"003"`, the file moves from the watch directory to the input
location, and exactly one status-0 row carrying that date and version is
inserted. -/
theorem c8_concrete_scenario_accepts :
    processFile cfg1 mvOk fs1 "/watch" "CH1X01012024-003.pls" =
      ({ dirs := [("/watch", [])], inputFiles := ["CH1X01012024-003.pls"] },
       [{ channeluid := "CH-01"
          playlistfilename := "CH1X01012024-003.pls"
          playlistfileversion := "003"
          playlistinputpath := "/input"
          playlistoutputpath := "/output"
          playlistdate := some "2024-01-01"
          status := 0
          remarks := none
          createdby := "admin"
          updatedby := "admin" }],
       Outcome.accepted "2024-01-01" "003") := by
  rfl

/-- C2: the code, evaluated at a filename with no `'-'`: `process_file`
raises an uncaught `IndexError` at `filename.split('-')[1]` (modelled as
`Outcome.crash`) instead of terminating with a rejection — the filesystem is
untouched and no audit row is written, but the exception propagates and kills
the poller. -/
theorem c2_no_dash_crashes :
    ("CH1X01012024.pls".toList.contains '-') = false ∧
    processFile cfg1 mvOk fs1 "/watch" "CH1X01012024.pls" = (fs1, [], Outcome.crash) := by
  exact ⟨rfl, rfl⟩

/-- C1: the code, evaluated at a configuration whose `playlistdateformat` is
`"%Y%m%d"` and a filename whose date digits `20240101` match that configured
format: `process_file` still parses with the hardcoded `"%d%m%Y"` pattern and
rejects with "Invalid date format", although the configured format parses the
segment successfully. -/
theorem c1_configured_format_ignored :
    cfgY.playlistdateformat = "%Y%m%d" ∧
    strptimeYmd (dateSegment "CH1X20240101-003.pls") = some ⟨2024, 1, 1⟩ ∧
    processFile cfgY mvOk fs1 "/watch" "CH1X20240101-003.pls" =
      (fs1, [rejRecord cfgY "CH1X20240101-003.pls" "003" "Invalid date format"],
       Outcome.rejected "Invalid date format" "003") := by
  exact ⟨rfl, rfl, rfl⟩

/-- C3, counterexample: a validated file whose move fails.  After the first
pass the file's path IS in `processed_files` and the second pass observes no
candidate at all — the claim's "not added to ProcessedSet, observed again on
the next scan pass" is false of the code (no audit row is written and the
file does stay in place, which the amended claim keeps). -/
theorem c3_counterexample_no_retry :
    runPasses cfg1 mvFail ["/watch"] st1 [[], []] =
      ({ fs := fs1, processed := ["/watch/CH1X01012024-003.pls"], records := [] },
       [[{ dir := "/watch", name := "CH1X01012024-003.pls"
           outcome := Outcome.moveFailed, records := [] }],
        []],
       false) := by
  rfl

/-- C6, counterexample: configured extension `".PLS"` and filename extension
`".pls"` are equal up to letter case, yet the file is rejected with "Invalid
file extension": only the filename's side is lower-cased before the exact
comparison. -/
theorem c6_counterexample_upper_config :
    lowerStr (splitextExt "CH1X01012024-003.pls") = lowerStr cfgU.playlistextension ∧
    (processFile cfgU mvOk fs1 "/watch" "CH1X01012024-003.pls").2.2 =
      Outcome.rejected "Invalid file extension" "003" := by
  exact ⟨rfl, rfl⟩

/-- C7, counterexample: the filename `CH1X112024-003.pls` (configured format
`"%d%m%Y"`).  Its date segment `112024` parses successfully (CPython's
`strptime` accepts non-padded day and month), the emitted canonical date is
`2024-01-01`, but re-encoding that date with the configured format gives
`01012024`, not the original digits `112024`. -/
theorem c7_counterexample_unpadded_digits :
    cfg1.playlistdateformat = "%d%m%Y" ∧
    dateSegment "CH1X112024-003.pls" = "112024" ∧
    (processFile cfg1 mvOk fs1 "/watch" "CH1X112024-003.pls").2.2 =
      Outcome.accepted "2024-01-01" "003" ∧
    strptimeDMY "112024" = some ⟨2024, 1, 1⟩ ∧
    encodeDMY ⟨2024, 1, 1⟩ = "01012024" ∧
    ("01012024" : String) ≠ "112024" := by
  refine ⟨rfl, rfl, rfl, rfl, rfl, ?_⟩
  decide

/-- C4, counterexample: `CH1X01012024.pls` (no `'-'`) violates the date rule
— its date segment, characters 4 up to the (absent) first `'-'`, does not
parse — yet the validator does not produce a rejection reason at all: it
crashes on version extraction before the date check runs. -/
theorem c4_counterexample_no_dash :
    strptimeDMY (dateSegment "CH1X01012024.pls") = none ∧
    processFile cfg1 mvOk fs1 "/watch" "CH1X01012024.pls" = (fs1, [], Outcome.crash) := by
  exact ⟨rfl, rfl⟩

/-- C10, counterexample: `CH1X01012024-00-3` contains two `'-'` and no `'.'`;
the date parses and the prefix matches, the file is rejected with "Invalid
file extension" as the claim says, but the recorded version token is `"00"`
(the segment between the first and second `'-'`), not the entire remainder
`"00-3"` after the first `'-'`. -/
theorem c10_counterexample_two_dashes :
    (processFile cfg1 mvOk fs1 "/watch" "CH1X01012024-00-3").2.2 =
      Outcome.rejected "Invalid file extension" "00" ∧
    String.mk ("CH1X01012024-00-3".toList.drop 13) = "00-3" ∧
    ("00" : String) ≠ "00-3" := by
  refine ⟨rfl, rfl, ?_⟩
  decide

/-! ## Claim theorems: watch-directory validation and the validation cascade -/

/-- C9: with at least one directory entry configured, startup fails with "No
valid watch directories found." when none of them exists on disk — before any
poll pass runs — and otherwise drops the nonexistent ones and proceeds to
poll over exactly the existing ones. -/
theorem c9_watch_dirs_validated (cfg : Config) (pe mv : String → Bool) (st : State)
    (arrs : List (List (String × String)))
    (h : parsedDirs cfg.playlistwatchfolder ≠ []) :
    startAndRun cfg pe mv st arrs =
      if ∀ d ∈ parsedDirs cfg.playlistwatchfolder, pe d = false then
        Except.error "No valid watch directories found."
      else
        Except.ok (runPasses cfg mv ((parsedDirs cfg.playlistwatchfolder).filter pe) st arrs) := by
  have hw : cfg.playlistwatchfolder ≠ "" := by
    intro he
    apply h
    rw [he]
    rfl
  unfold startAndRun parseWatchDirectories
  rw [if_neg hw]
  by_cases hv : ∀ d ∈ parsedDirs cfg.playlistwatchfolder, pe d = false
  · have hnil : (parsedDirs cfg.playlistwatchfolder).filter pe = [] := by
      rw [List.filter_eq_nil_iff]
      intro a ha
      simp [hv a ha]
    rw [if_pos hnil, if_pos hv]
  · have hnil : ¬ (parsedDirs cfg.playlistwatchfolder).filter pe = [] := by
      rw [List.filter_eq_nil_iff]
      intro hall
      exact hv (fun d hd => by simpa using hall d hd)
    rw [if_neg hnil, if_neg hv]

/-- Witness for C9 at a concrete input: two configured directories of which
only `/w1` exists. -/
theorem c9_witness :
    parsedDirs cfgW.playlistwatchfolder ≠ [] ∧
    startAndRun cfgW (fun d => d == "/w1") mvOk st1 [] =
      (if ∀ d ∈ parsedDirs cfgW.playlistwatchfolder, (fun d : String => d == "/w1") d = false then
        Except.error "No valid watch directories found."
      else
        Except.ok (runPasses cfgW mvOk
          ((parsedDirs cfgW.playlistwatchfolder).filter (fun d => d == "/w1")) st1 [])) :=
  ⟨by decide, c9_watch_dirs_validated cfgW (fun d => d == "/w1") mvOk st1 [] (by decide)⟩

/-- C4 (amended): for every filename containing at least one `'-'` (so that
version extraction does not raise, see C2) that violates the date, prefix or
extension rule, the validator produces exactly one rejection reason, chosen
by the precedence date → prefix → extension. -/
theorem c4_one_reason_in_precedence_order (cfg : Config) (mv : String → Bool) (fs : FS)
    (dp fn : String) (hdash : 2 ≤ (splitOnChar '-' fn.toList).length)
    (hviol : strptimeDMY (dateSegment fn) = none ∨ take3 fn ≠ cfg.playlistnameprefix ∨
      lowerStr (splitextExt fn) ≠ cfg.playlistextension) :
    (processFile cfg mv fs dp fn).2.2 =
      Outcome.rejected
        (if strptimeDMY (dateSegment fn) = none then "Invalid date format"
         else if take3 fn ≠ cfg.playlistnameprefix then "Invalid prefix"
         else "Invalid file extension")
        (versionTok fn) := by
  cases hd : strptimeDMY (dateSegment fn) with
  | none =>
    rw [processFile_eq_dateFail cfg mv fs dp fn hdash hd]
    simp
  | some dte =>
    rw [processFile_eq_dateOk cfg mv fs dp fn hdash hd]
    have hne : strptimeDMY (dateSegment fn) ≠ none := by simp [hd]
    by_cases hp : take3 fn = cfg.playlistnameprefix
    · have hext : lowerStr (splitextExt fn) ≠ cfg.playlistextension := by
        rcases hviol with h | h | h
        · exact absurd h hne
        · exact absurd hp h
        · exact h
      rw [if_neg (by simpa using hp), if_pos hext]
      simp [hp]
    · rw [if_pos hp]
      simp [hp]

/-- Witness for C4 at a concrete input: a prefix violation is reported as
"Invalid prefix" (date parsed fine, extension fine). -/
theorem c4_witness :
    (processFile cfg1 mvOk fs1 "/watch" "XYZX01012024-003.pls").2.2 =
      Outcome.rejected "Invalid prefix" "003" := by
  rw [c4_one_reason_in_precedence_order cfg1 mvOk fs1 "/watch" "XYZX01012024-003.pls"
    (by decide) (Or.inr (Or.inl (by decide)))]
  rfl

/-- C6 (amended): the extension check lower-cases the filename's extension
and then compares it verbatim to the configured extension: with the date and
prefix checks passing, the file is rejected for its extension exactly when
the lower-cased filename extension differs from the configured extension as
written (so a configured extension containing an upper-case letter never
matches, see the counterexample). -/
theorem c6_extension_lowercased_filename_side (cfg : Config) (mv : String → Bool) (fs : FS)
    (dp fn : String) (hdash : 2 ≤ (splitOnChar '-' fn.toList).length)
    (hdate : strptimeDMY (dateSegment fn) ≠ none)
    (hpfx : take3 fn = cfg.playlistnameprefix) :
    (processFile cfg mv fs dp fn).2.2 = Outcome.rejected "Invalid file extension" (versionTok fn)
      ↔ lowerStr (splitextExt fn) ≠ cfg.playlistextension := by
  obtain ⟨dte, hd⟩ := Option.ne_none_iff_exists'.mp hdate
  rw [processFile_eq_dateOk cfg mv fs dp fn hdash hd]
  rw [if_neg (by simpa using hpfx)]
  by_cases he : lowerStr (splitextExt fn) = cfg.playlistextension
  · rw [if_neg (by simpa using he)]
    simp only [he, ne_eq, not_true_eq_false, iff_false]
    by_cases hm : mv (dp ++ "/" ++ fn)
    · rw [if_pos hm]; simp
    · rw [if_neg hm]; simp
  · rw [if_pos he]
    simp [he]

/-- Witness for C6 at a concrete input: date and prefix pass, lower-cased
extension ".pls" equals the configured ".pls", and indeed the file is not
rejected for its extension. -/
theorem c6_witness :
    ¬ ((processFile cfg1 mvOk fs1 "/watch" "CH1X01012024-003.pls").2.2 =
        Outcome.rejected "Invalid file extension" (versionTok "CH1X01012024-003.pls")) := by
  rw [c6_extension_lowercased_filename_side cfg1 mvOk fs1 "/watch" "CH1X01012024-003.pls"
    (by decide) (by decide) (by decide)]
  decide

/-- C10 (amended): a filename with a `'-'` but no `'.'` whose date parses and
whose prefix matches is rejected with "Invalid file extension" (its computed
extension is the empty string, which cannot equal the non-empty configured
extension), and the recorded version token is the segment between the first
and the second `'-'` (the entire remainder exactly when there is one `'-'`). -/
theorem c10_no_dot_rejected_extension (cfg : Config) (mv : String → Bool) (fs : FS)
    (dp fn : String) (hdash : 2 ≤ (splitOnChar '-' fn.toList).length)
    (hnodot : '.' ∉ fn.toList)
    (hdate : strptimeDMY (dateSegment fn) ≠ none)
    (hpfx : take3 fn = cfg.playlistnameprefix)
    (hext : cfg.playlistextension ≠ "") :
    (processFile cfg mv fs dp fn).2.2 =
      Outcome.rejected "Invalid file extension"
        (String.mk ((splitOnChar '-' fn.toList).getD 1 [])) := by
  have hvt : versionTok fn = String.mk ((splitOnChar '-' fn.toList).getD 1 []) := by
    unfold versionTok
    have hmem : (splitOnChar '-' fn.toList).getD 1 [] ∈ splitOnChar '-' fn.toList := by
      have h1 : 1 < (splitOnChar '-' fn.toList).length := hdash
      rw [List.getD_eq_getElem _ _ h1]
      exact List.get_mem _ 1 h1
    have hseg : '.' ∉ (splitOnChar '-' fn.toList).getD 1 [] :=
      fun hc => hnodot (mem_of_mem_splitOnChar hmem hc)
    rw [splitOnChar_no_sep hseg]
    rfl
  have hlow : lowerStr (splitextExt fn) = "" := by
    rw [splitextExt_eq_empty hnodot]
    rfl
  obtain ⟨dte, hd⟩ := Option.ne_none_iff_exists'.mp hdate
  rw [processFile_eq_dateOk cfg mv fs dp fn hdash hd]
  rw [if_neg (by simpa using hpfx), if_pos (by rw [hlow]; exact fun he => hext he.symm), hvt]

/-- Witness for C10 at a concrete input with exactly one `'-'` and no `'.'`. -/
theorem c10_witness :
    (processFile cfg1 mvOk fs1 "/watch" "CH1X01012024-007").2.2 =
      Outcome.rejected "Invalid file extension"
        (String.mk ((splitOnChar '-' "CH1X01012024-007".toList).getD 1 [])) :=
  c10_no_dot_rejected_extension cfg1 mvOk fs1 "/watch" "CH1X01012024-007"
    (by decide) (by decide) (by decide) (by decide) (by decide)

/-- C3 (amended): when a validated file's move fails during a pass, no audit
row is written for it and the file is still a regular-file entry at its
original directory path when the pass ends — but its path IS added to
`processed_files`, so (contrary to the claim, see the counterexample) it is
not observed again as a candidate within the same process run. -/
theorem c3_failed_move_no_record_but_marked (cfg : Config) (mv : String → Bool)
    (wds : List String) (st : State) (e : Event)
    (he : e ∈ (scanDirs cfg mv wds st).2.1)
    (hout : e.outcome = Outcome.moveFailed) :
    e.records = [] ∧ e.path ∈ (scanDirs cfg mv wds st).1.processed ∧
      isfileIn (scanDirs cfg mv wds st).1.fs e.dir e.name = true := by
  obtain ⟨h1, h2, h3⟩ := scan_moveFailed_props cfg mv wds st e he hout
  refine ⟨h1, h2, ?_⟩
  unfold isfileIn
  rw [h3]
  rfl

/-- Witness for C3's amended theorem at a concrete input: one watch directory
with one valid file whose move fails. -/
theorem c3_witness :
    (⟨"/watch", "CH1X01012024-003.pls", Outcome.moveFailed, []⟩ : Event).records = [] ∧
    (⟨"/watch", "CH1X01012024-003.pls", Outcome.moveFailed, []⟩ : Event).path ∈
      (scanDirs cfg1 mvFail ["/watch"] st1).1.processed ∧
    isfileIn (scanDirs cfg1 mvFail ["/watch"] st1).1.fs "/watch" "CH1X01012024-003.pls" =
      true :=
  c3_failed_move_no_record_but_marked cfg1 mvFail ["/watch"] st1
    ⟨"/watch", "CH1X01012024-003.pls", Outcome.moveFailed, []⟩ (by decide) rfl

/-- C5: a file path whose dispatch in pass `i` ended terminally (moved or
rejected) is in `processed_files` from then on (in particular at the end of
the run) and is never dispatched to the validator again in any later pass of
the same run. -/
theorem c5_terminal_path_never_reprocessed (cfg : Config) (mv : String → Bool)
    (wds : List String) (st : State) (arrs : List (List (String × String)))
    (i j : Nat) (pi pj : List Event) (e e' : Event)
    (hi : (runPasses cfg mv wds st arrs).2.1.get? i = some pi)
    (hj : (runPasses cfg mv wds st arrs).2.1.get? j = some pj)
    (hij : i < j) (he : e ∈ pi) (hterm : e.outcome.isHandled = true) (he' : e' ∈ pj) :
    e.path ∈ (runPasses cfg mv wds st arrs).1.processed ∧ e'.path ≠ e.path := by
  have hnc : e.outcome ≠ Outcome.crash := by
    intro h
    rw [h] at hterm
    exact absurd hterm (by simp [Outcome.isHandled])
  exact ⟨run_pass_in_final_processed cfg mv wds arrs st i pi e hi he hnc,
    run_no_redispatch cfg mv wds arrs st i j pi pj e e' hi hj hij he hnc he'⟩

/-- Witness for C5 at a concrete input: pass 1 accepts a file; a second file
arrives before pass 2 and is dispatched there; the first file's path is in
`processed_files` at the end and pass 2's dispatch is a different path. -/
theorem c5_witness :
    (⟨"/watch", "CH1X01012024-003.pls", Outcome.accepted "2024-01-01" "003",
        [accRecord cfg1 "CH1X01012024-003.pls" "2024-01-01" "003"]⟩ : Event).path ∈
      (runPasses cfg1 mvOk ["/watch"] st1
        [[], [("/watch", "CH1X02012024-004.pls")]]).1.processed ∧
    (⟨"/watch", "CH1X02012024-004.pls", Outcome.accepted "2024-01-02" "004",
        [accRecord cfg1 "CH1X02012024-004.pls" "2024-01-02" "004"]⟩ : Event).path ≠
      (⟨"/watch", "CH1X01012024-003.pls", Outcome.accepted "2024-01-01" "003",
        [accRecord cfg1 "CH1X01012024-003.pls" "2024-01-01" "003"]⟩ : Event).path :=
  c5_terminal_path_never_reprocessed cfg1 mvOk ["/watch"] st1
    [[], [("/watch", "CH1X02012024-004.pls")]] 0 1
    [⟨"/watch", "CH1X01012024-003.pls", Outcome.accepted "2024-01-01" "003",
      [accRecord cfg1 "CH1X01012024-003.pls" "2024-01-01" "003"]⟩]
    [⟨"/watch", "CH1X02012024-004.pls", Outcome.accepted "2024-01-02" "004",
      [accRecord cfg1 "CH1X02012024-004.pls" "2024-01-02" "004"]⟩]
    ⟨"/watch", "CH1X01012024-003.pls", Outcome.accepted "2024-01-01" "003",
      [accRecord cfg1 "CH1X01012024-003.pls" "2024-01-01" "003"]⟩
    ⟨"/watch", "CH1X02012024-004.pls", Outcome.accepted "2024-01-02" "004",
      [accRecord cfg1 "CH1X02012024-004.pls" "2024-01-02" "004"]⟩
    (by decide) (by decide) (by decide) (by decide) (by decide) (by decide)

/-- C7 (amended): when the date segment is exactly eight characters (day and
month zero-padded) and parses, re-encoding the parsed date with the `%d%m%Y`
pattern the code actually uses reproduces the original digits exactly.
(Shorter segments also parse but re-encode padded — see the counterexample —
and the code ignores the configured format, see C1.) -/
theorem c7_roundtrip_eight_digit_segment (fn : String) (dte : Date)
    (hlen : (dateSegment fn).length = 8)
    (hparse : strptimeDMY (dateSegment fn) = some dte) :
    encodeDMY dte = dateSegment fn := by
  unfold strptimeDMY at hparse
  cases hm : firstMatchDMY (dateSegment fn).toList with
  | none => rw [hm] at hparse; simp at hparse
  | some q =>
    obtain ⟨d, m, y, r⟩ := q
    rw [hm] at hparse
    cases r with
    | nil =>
      dsimp only at hparse
      split_ifs at hparse with hval
      simp only [Option.some.injEq] at hparse
      subst hparse
      have h8 : (dateSegment fn).toList.length = 8 := hlen
      have hsplit := firstMatch_eight h8 hm
      show String.mk (pad2 d ++ pad2 m ++ pad4 y) = dateSegment fn
      rw [hsplit]
      rfl
    | cons hd tl => dsimp only at hparse; exact absurd hparse (by simp)

/-- Witness for C7's amended theorem at the spec's concrete filename. -/
theorem c7_witness :
    (dateSegment "CH1X01012024-003.pls").length = 8 ∧
    strptimeDMY (dateSegment "CH1X01012024-003.pls") = some ⟨2024, 1, 1⟩ ∧
    encodeDMY ⟨2024, 1, 1⟩ = dateSegment "CH1X01012024-003.pls" :=
  ⟨by decide, rfl,
    c7_roundtrip_eight_digit_segment "CH1X01012024-003.pls" ⟨2024, 1, 1⟩ (by decide) rfl⟩

end PlaylistVerifier
